import Mathlib

/-!
Verification of the snake game in `src/game.js` (Sathi_game).

The simulation state is the set of module-level variables of `game.js`
(`snake`, `previousSnake`, `direction`, `nextDirection`, `food`, `score`,
`isRunning`, `isGameOver`, `eatAnimMs`).  Cells are integer coordinate
pairs; `Math.random`-based food placement is modelled by passing the
placement routine (`pick`) or its candidate stream (`s`) explicitly.
Wall-clock quantities (`accumulator`, `eatAnimMs`, elapsed deltas) are
modelled as rationals.
-/

namespace SathiGame

/-- A grid cell, the `{ x, y }` objects of `game.js`.  Coordinates are
integers: the computed new head may leave the board (wall check). -/
structure Cell where
  x : Int
  y : Int
  deriving DecidableEq, Repr

instance : Inhabited Cell := ⟨⟨0, 0⟩⟩

/-- `const tileCount = 13` (game.js line 17). -/
def tileCount : Int := 13

/-- `const baseSpeed = 5` (game.js line 18), in grid steps per second. -/
def baseSpeed : ℚ := 5

/-- `let moveInterval = 1000 / baseSpeed` (game.js line 22), i.e. 200 ms. -/
def moveInterval : ℚ := 1000 / baseSpeed

/-- The module-level mutable game state of `game.js` (lines 26-34). -/
structure GameState where
  snake : List Cell
  previousSnake : Option (List Cell)
  direction : Cell
  nextDirection : Cell
  food : Cell
  score : Nat
  isRunning : Bool
  isGameOver : Bool
  eatAnimMs : ℚ
  deriving DecidableEq, Repr

/-- The wall test of `step` (game.js lines 183-186):
`newHead.x < 0 || newHead.x >= tileCount || newHead.y < 0 || newHead.y >= tileCount`. -/
def hitsWall (c : Cell) : Bool :=
  decide (c.x < 0) || decide (tileCount ≤ c.x) || decide (c.y < 0) || decide (tileCount ≤ c.y)

/-- The per-segment comparison used by both the self-collision test and
`placeFood`: `seg.x === c.x && seg.y === c.y`. -/
def cellHit (seg c : Cell) : Bool :=
  seg.x == c.x && seg.y == c.y

/-- The self-collision test of `step` (game.js line 190):
`snake.some(seg => seg.x === newHead.x && seg.y === newHead.y)`. -/
def hitsSelf (snake : List Cell) (c : Cell) : Bool :=
  snake.any fun seg => cellHit seg c

/-- The new head computed by `step` (game.js lines 176-180), after
`direction = nextDirection` has been applied: `snake[0] + direction`. -/
def newHeadOf (st : GameState) : Cell :=
  ⟨st.snake.headI.x + st.nextDirection.x, st.snake.headI.y + st.nextDirection.y⟩

/-- `gameOver()` (game.js lines 207-214); only the state mutations, the
overlay text and sound are external effects. -/
def gameOverOf (st : GameState) : GameState :=
  { st with isRunning := false, isGameOver := true }

/-- One discrete step, `step()` (game.js lines 163-205).  `pick` stands for
the `placeFood` routine: it receives the occupied cells (the snake after the
head is unshifted, as at game.js line 201) and returns the new food cell.
Both branches of the `previousSnake` copy (lines 165-172) end with
`previousSnake` holding the pre-move snake's cell values, which is how it is
modelled here.  `direction = nextDirection` (line 174) happens before the
new head is computed, so `newHeadOf` reads `nextDirection`. -/
def step (pick : List Cell → Cell) (st : GameState) : GameState :=
  let st1 := { st with previousSnake := some st.snake, direction := st.nextDirection }
  let nh := newHeadOf st
  if hitsWall nh then gameOverOf st1
  else if hitsSelf st.snake nh then gameOverOf st1
  else
    let grown := nh :: st.snake
    if cellHit nh st.food then
      { st1 with snake := grown, score := st.score + 1, eatAnimMs := 200, food := pick grown }
    else
      { st1 with snake := grown.dropLast }

/-- `initGame()` (game.js lines 92-121), the state mutations only:
a 3-cell horizontal snake at `(⌊N/4⌋, ⌊N/2⌋)` heading right, score 0,
food placed off the snake by `placeFood` (modelled by `pick`), running. -/
def initGame (pick : List Cell → Cell) : GameState :=
  let startX : Int := tileCount / 4
  let startY : Int := tileCount / 2
  let snake0 : List Cell := [⟨startX, startY⟩, ⟨startX - 1, startY⟩, ⟨startX - 2, startY⟩]
  { snake := snake0
    previousSnake := some snake0
    direction := ⟨1, 0⟩
    nextDirection := ⟨1, 0⟩
    food := pick snake0
    score := 0
    isRunning := true
    isGameOver := false
    eatAnimMs := 0 }

/-- Reachable simulation states: any `initGame` (food placement arbitrary),
plus any `step` taken from a running reachable state — `gameLoop` only calls
`step()` while `isRunning` (game.js lines 137, 143-147). -/
inductive Reachable : GameState → Prop
  | init (pick : List Cell → Cell) : Reachable (initGame pick)
  | step (pick : List Cell → Cell) {st : GameState} :
      Reachable st → st.isRunning = true → Reachable (step pick st)

theorem cellHit_eq_true_iff (seg c : Cell) : cellHit seg c = true ↔ seg = c := by
  cases seg; cases c
  simp [cellHit, Cell.mk.injEq]

theorem hitsSelf_eq_true_iff (snake : List Cell) (c : Cell) :
    hitsSelf snake c = true ↔ c ∈ snake := by
  simp only [hitsSelf, List.any_eq_true, cellHit_eq_true_iff]
  constructor
  · rintro ⟨seg, hmem, rfl⟩; exact hmem
  · intro h; exact ⟨c, h, rfl⟩

theorem hitsSelf_eq_false_iff (snake : List Cell) (c : Cell) :
    hitsSelf snake c = false ↔ c ∉ snake := by
  rw [← Bool.not_eq_true, not_iff_not]
  exact hitsSelf_eq_true_iff snake c

/-- In every branch, `step` overwrites `direction` with the queued
`nextDirection` (game.js line 174) before anything else is decided. -/
theorem step_direction (pick : List Cell → Cell) (st : GameState) :
    (step pick st).direction = st.nextDirection := by
  unfold step gameOverOf
  dsimp only
  split
  · rfl
  · split
    · rfl
    · split <;> rfl

/-- `step` never turns a stopped game back on: `isRunning` can only go from
`true` to `false` inside `step` (only `gameOver()` writes it). -/
theorem step_isRunning_mono (pick : List Cell → Cell) (st : GameState) :
    (step pick st).isRunning = true → st.isRunning = true := by
  unfold step gameOverOf
  dsimp only
  split
  · intro h; exact absurd h (by simp)
  · split
    · intro h; exact absurd h (by simp)
    · split <;> exact id

/-- If a step does not end the game, it preserves distinctness of the
snake's cells: the new head was checked against every existing cell
(game.js line 190) before being unshifted, and the no-food branch only
drops the tail. -/
theorem step_preserves_nodup (pick : List Cell → Cell) (st : GameState)
    (hnd : st.snake.Nodup) (hrun : (step pick st).isRunning = true) :
    (step pick st).snake.Nodup := by
  unfold step gameOverOf at hrun ⊢
  dsimp only at hrun ⊢
  by_cases hwall : hitsWall (newHeadOf st) = true
  · simp [hwall] at hrun
  · by_cases hself : hitsSelf st.snake (newHeadOf st) = true
    · simp [hwall, hself] at hrun
    · have hmem : newHeadOf st ∉ st.snake :=
        (hitsSelf_eq_false_iff st.snake (newHeadOf st)).mp (Bool.eq_false_iff.mpr hself)
      have hcons : (newHeadOf st :: st.snake).Nodup := List.nodup_cons.mpr ⟨hmem, hnd⟩
      by_cases hfood : cellHit (newHeadOf st) st.food = true
      · simpa [hwall, hself, hfood] using hcons
      · simpa [hwall, hself, hfood] using hcons.sublist (List.dropLast_sublist _)

/-- C1: for every reachable state in which the game is running, the snake's
cell list contains no duplicate cells: each step checks the new head against
every existing snake cell before inserting it, so pairwise distinctness is
preserved from the 3-cell initial snake by every step that does not end the
game. -/
theorem reachable_running_snake_nodup (st : GameState)
    (h : Reachable st) (hrun : st.isRunning = true) : st.snake.Nodup := by
  induction h with
  | init pick =>
      have hs : (initGame pick).snake =
          [⟨3, 6⟩, ⟨2, 6⟩, ⟨1, 6⟩] := rfl
      rw [hs]; decide
  | step pick hst hr ih =>
      rename_i st'
      exact step_preserves_nodup pick st' (ih hr) hrun

/-- A fixed food-placement routine used to instantiate theorems with
hypotheses at concrete states. -/
def pick0 : List Cell → Cell := fun _ => ⟨0, 0⟩

theorem reachable_running_snake_nodup_witness :
    (initGame pick0).isRunning = true ∧ (initGame pick0).snake.Nodup :=
  ⟨rfl, reachable_running_snake_nodup (initGame pick0) (Reachable.init pick0) rfl⟩

/-- C2: in a non-colliding step, reaching the food cell increments the score
by exactly 1, keeps the tail (the snake is exactly the new head consed onto
the old body, so its length grows by exactly 1) and sets the bite timer to
200 ms; a non-colliding step that misses the food leaves both the score and
the snake's length unchanged (the tail is popped). -/
theorem step_food_spec (pick : List Cell → Cell) (st : GameState)
    (hwall : hitsWall (newHeadOf st) = false)
    (hself : hitsSelf st.snake (newHeadOf st) = false) :
    (newHeadOf st = st.food →
      (step pick st).score = st.score + 1 ∧
      (step pick st).snake = newHeadOf st :: st.snake ∧
      (step pick st).snake.length = st.snake.length + 1 ∧
      (step pick st).eatAnimMs = 200) ∧
    (newHeadOf st ≠ st.food →
      (step pick st).score = st.score ∧
      (step pick st).snake.length = st.snake.length) := by
  constructor
  · intro hf
    have hfood : cellHit (newHeadOf st) st.food = true := (cellHit_eq_true_iff _ _).mpr hf
    unfold step; dsimp only
    simp [hwall, hself, hfood]
  · intro hf
    have hfood : cellHit (newHeadOf st) st.food = false :=
      Bool.eq_false_iff.mpr fun hc => hf ((cellHit_eq_true_iff _ _).mp hc)
    unfold step; dsimp only
    simp [hwall, hself, hfood, List.length_dropLast]

/-- A concrete running state whose next step eats the food at `(4, 6)`. -/
def stEat : GameState :=
  { snake := [⟨3, 6⟩, ⟨2, 6⟩, ⟨1, 6⟩]
    previousSnake := some [⟨3, 6⟩, ⟨2, 6⟩, ⟨1, 6⟩]
    direction := ⟨1, 0⟩
    nextDirection := ⟨1, 0⟩
    food := ⟨4, 6⟩
    score := 0
    isRunning := true
    isGameOver := false
    eatAnimMs := 0 }

theorem step_food_spec_witness :
    hitsWall (newHeadOf stEat) = false ∧
    hitsSelf stEat.snake (newHeadOf stEat) = false ∧
    newHeadOf stEat = stEat.food ∧
    ((step pick0 stEat).score = stEat.score + 1 ∧
     (step pick0 stEat).snake = newHeadOf stEat :: stEat.snake ∧
     (step pick0 stEat).snake.length = stEat.snake.length + 1 ∧
     (step pick0 stEat).eatAnimMs = 200) :=
  ⟨by decide, by decide, by decide,
    (step_food_spec pick0 stEat (by decide) (by decide)).1 (by decide)⟩

/-- C3: the self-collision check runs against the whole pre-move body —
the current tail included, since the tail has not yet been popped at check
time — so a step whose computed new head lands on any existing snake cell
ends in GameOver (`isGameOver` set, `isRunning` cleared). -/
theorem step_self_collision_gameOver (pick : List Cell → Cell) (st : GameState)
    (h : newHeadOf st ∈ st.snake) :
    (step pick st).isGameOver = true ∧ (step pick st).isRunning = false := by
  have hself : hitsSelf st.snake (newHeadOf st) = true := (hitsSelf_eq_true_iff _ _).mpr h
  unfold step gameOverOf; dsimp only
  by_cases hwall : hitsWall (newHeadOf st) = true
  · simp [hwall]
  · simp [hwall, hself]

/-- A running state about to move its head `(2, 2)` right onto its own tail
cell `(3, 2)` — the cell a non-growing move would vacate. -/
def stTail : GameState :=
  { snake := [⟨2, 2⟩, ⟨2, 3⟩, ⟨3, 3⟩, ⟨3, 2⟩]
    previousSnake := some [⟨2, 2⟩, ⟨2, 3⟩, ⟨3, 3⟩, ⟨3, 2⟩]
    direction := ⟨0, -1⟩
    nextDirection := ⟨1, 0⟩
    food := ⟨7, 7⟩
    score := 0
    isRunning := true
    isGameOver := false
    eatAnimMs := 0 }

theorem step_self_collision_gameOver_witness :
    newHeadOf stTail = ⟨3, 2⟩ ∧
    newHeadOf stTail ∈ stTail.snake ∧
    ((step pick0 stTail).isGameOver = true ∧ (step pick0 stTail).isRunning = false) :=
  ⟨by decide, by decide, step_self_collision_gameOver pick0 stTail (by decide)⟩

/-- C8: a collided step is atomic: if the new head fails the wall check or
the self-collision check, the machine enters GameOver and the snake body,
the food cell and the score are exactly as they were before the step. -/
theorem step_collision_atomic (pick : List Cell → Cell) (st : GameState)
    (h : hitsWall (newHeadOf st) = true ∨ hitsSelf st.snake (newHeadOf st) = true) :
    (step pick st).isGameOver = true ∧ (step pick st).isRunning = false ∧
    (step pick st).snake = st.snake ∧ (step pick st).food = st.food ∧
    (step pick st).score = st.score := by
  unfold step gameOverOf; dsimp only
  rcases h with h | h
  · simp [h]
  · by_cases hwall : hitsWall (newHeadOf st) = true
    · simp [hwall]
    · simp [hwall, h]

/-- A running state whose head `(12, 6)` is against the right wall while
heading right: the next step's head `(13, 6)` is out of bounds. -/
def stWall : GameState :=
  { snake := [⟨12, 6⟩, ⟨11, 6⟩, ⟨10, 6⟩]
    previousSnake := some [⟨12, 6⟩, ⟨11, 6⟩, ⟨10, 6⟩]
    direction := ⟨1, 0⟩
    nextDirection := ⟨1, 0⟩
    food := ⟨0, 0⟩
    score := 0
    isRunning := true
    isGameOver := false
    eatAnimMs := 0 }

theorem step_collision_atomic_witness :
    (hitsWall (newHeadOf stWall) = true ∨ hitsSelf stWall.snake (newHeadOf stWall) = true) ∧
    ((step pick0 stWall).isGameOver = true ∧ (step pick0 stWall).isRunning = false ∧
     (step pick0 stWall).snake = stWall.snake ∧ (step pick0 stWall).food = stWall.food ∧
     (step pick0 stWall).score = stWall.score) :=
  ⟨Or.inl (by decide), step_collision_atomic pick0 stWall (Or.inl (by decide))⟩

/-- A running state heading right along the top wall with an up-turn queued:
the step applies the queued direction, then dies on the wall check. -/
def stTurnCrash : GameState :=
  { snake := [⟨12, 0⟩, ⟨11, 0⟩, ⟨10, 0⟩]
    previousSnake := some [⟨12, 0⟩, ⟨11, 0⟩, ⟨10, 0⟩]
    direction := ⟨1, 0⟩
    nextDirection := ⟨0, -1⟩
    food := ⟨0, 5⟩
    score := 0
    isRunning := true
    isGameOver := false
    eatAnimMs := 0 }

/-- C10: `direction = nextDirection` is executed before the collision checks,
so every step — a collided one included — leaves the stored direction equal
to the queued requested direction; and there is a game-ending step after
which that stored direction differs from the direction of the snake's last
completed move. -/
theorem step_gameOver_direction_overwritten :
    (∀ (pick : List Cell → Cell) (st : GameState),
      (step pick st).direction = st.nextDirection) ∧
    (∃ (pick : List Cell → Cell) (st : GameState),
      (step pick st).isGameOver = true ∧ (step pick st).direction ≠ st.direction) := by
  refine ⟨step_direction, ⟨pick0, stTurnCrash, ?_, ?_⟩⟩ <;> decide

/-- The four direction inputs of the keydown handler (game.js lines
500-521); arrow keys and WASD map to the same four cases. -/
inductive Key
  | up
  | down
  | left
  | right
  deriving DecidableEq, Repr

/-- The `switch (e.key)` body of the keydown handler (game.js lines
500-521): each case writes the single `nextDirection` slot unless the
request is the exact reverse of the *currently applied* `direction`. -/
def applyKey (st : GameState) (k : Key) : GameState :=
  match k with
  | .up => if st.direction.y ≠ 1 then { st with nextDirection := ⟨0, -1⟩ } else st
  | .down => if st.direction.y ≠ -1 then { st with nextDirection := ⟨0, 1⟩ } else st
  | .left => if st.direction.x ≠ 1 then { st with nextDirection := ⟨-1, 0⟩ } else st
  | .right => if st.direction.x ≠ -1 then { st with nextDirection := ⟨1, 0⟩ } else st

/-- The whole keydown handler (game.js lines 495-522): a key pressed on the
start screen (`!isRunning && !isGameOver`) first starts the game via
`initGame()`, then the direction switch runs on the resulting state. -/
def keydown (pick : List Cell → Cell) (st : GameState) (k : Key) : GameState :=
  let st1 := if st.isRunning = false ∧ st.isGameOver = false then initGame pick else st
  applyKey st1 k

/-- C7: a requested direction that is the exact reverse of the currently
applied direction is rejected: in a running quiescent state (queued slot
equal to the applied direction), a reversal keypress leaves `nextDirection`
unchanged and the next step still applies the old direction — for all four
headings.  Moreover the handler never writes `direction` itself, so the
reversal guard of any later press in the same inter-step window is still
evaluated against the applied direction, and the requests collapse into the
single `nextDirection` slot. -/
theorem keydown_reversal_rejected (pick pick2 : List Cell → Cell) (st : GameState)
    (hrun : st.isRunning = true) :
    ((st.direction = ⟨1, 0⟩ → st.nextDirection = ⟨1, 0⟩ →
        (keydown pick st .left).nextDirection = ⟨1, 0⟩ ∧
        (step pick2 (keydown pick st .left)).direction = ⟨1, 0⟩) ∧
     (st.direction = ⟨-1, 0⟩ → st.nextDirection = ⟨-1, 0⟩ →
        (keydown pick st .right).nextDirection = ⟨-1, 0⟩ ∧
        (step pick2 (keydown pick st .right)).direction = ⟨-1, 0⟩) ∧
     (st.direction = ⟨0, 1⟩ → st.nextDirection = ⟨0, 1⟩ →
        (keydown pick st .up).nextDirection = ⟨0, 1⟩ ∧
        (step pick2 (keydown pick st .up)).direction = ⟨0, 1⟩) ∧
     (st.direction = ⟨0, -1⟩ → st.nextDirection = ⟨0, -1⟩ →
        (keydown pick st .down).nextDirection = ⟨0, -1⟩ ∧
        (step pick2 (keydown pick st .down)).direction = ⟨0, -1⟩)) ∧
    (∀ k : Key, (keydown pick st k).direction = st.direction) := by
  have hcond : ¬(st.isRunning = false ∧ st.isGameOver = false) := by
    rintro ⟨h, -⟩; rw [hrun] at h; exact absurd h (by simp)
  constructor
  · refine ⟨?_, ?_, ?_, ?_⟩ <;>
      · intro hdir hnext
        have hkd : ∀ k, keydown pick st k = applyKey st k := by
          intro k; unfold keydown; rw [if_neg hcond]
        rw [hkd]
        unfold applyKey
        simp [hdir, step_direction, hnext]
  · intro k
    unfold keydown
    rw [if_neg hcond]
    cases k <;> unfold applyKey <;> dsimp only <;> split <;> rfl

/-- A quiescent running state heading right, used to instantiate the
reversal guard. -/
def stRight : GameState :=
  { snake := [⟨5, 6⟩, ⟨4, 6⟩, ⟨3, 6⟩]
    previousSnake := some [⟨5, 6⟩, ⟨4, 6⟩, ⟨3, 6⟩]
    direction := ⟨1, 0⟩
    nextDirection := ⟨1, 0⟩
    food := ⟨9, 9⟩
    score := 0
    isRunning := true
    isGameOver := false
    eatAnimMs := 0 }

theorem keydown_reversal_rejected_witness :
    stRight.isRunning = true ∧
    ((keydown pick0 stRight .left).nextDirection = ⟨1, 0⟩ ∧
     (step pick0 (keydown pick0 stRight .left)).direction = ⟨1, 0⟩) :=
  ⟨rfl, (keydown_reversal_rejected pick0 pick0 stRight rfl).1.1 rfl rfl⟩

/-- `step()` iterated `n` times. -/
def stepIter (pick : List Cell → Cell) : Nat → GameState → GameState
  | 0, st => st
  | n + 1, st => stepIter pick n (step pick st)

/-- The catch-up while-loop of `gameLoop` (game.js lines 143-147):
`while (accumulator >= moveInterval) { accumulator -= moveInterval; step();
if (!isRunning) break; }`, returning the number of `step()` calls made, the
final accumulator and the final state.  `fuel` only bounds the number of
iterations so the function is total; every theorem below supplies enough of
it, matching the real loop which needs none because the accumulator shrinks
by `moveInterval` on every pass. -/
def loopSteps (pick : List Cell → Cell) : Nat → ℚ → GameState → Nat × ℚ × GameState
  | 0, acc, st => (0, acc, st)
  | fuel + 1, acc, st =>
    if moveInterval ≤ acc then
      let st' := step pick st
      if st'.isRunning then
        let r := loopSteps pick fuel (acc - moveInterval) st'
        (r.1 + 1, r.2.1, r.2.2)
      else (1, acc - moveInterval, st')
    else (0, acc, st)

/-- `const interp = Math.min(1, accumulator / moveInterval)` (game.js
line 155), the interpolation fraction handed to the renderer. -/
def fractionOf (acc : ℚ) : ℚ := min 1 (acc / moveInterval)

theorem moveInterval_eq : moveInterval = 200 := by
  norm_num [moveInterval, baseSpeed]

theorem loopSteps_of_lt (pick : List Cell → Cell) (fuel : Nat) (acc : ℚ) (st : GameState)
    (h : acc < moveInterval) : loopSteps pick fuel acc st = (0, acc, st) := by
  cases fuel with
  | zero => rfl
  | succ f =>
      unfold loopSteps
      rw [if_neg (not_le.mpr h)]

/-- C4: the simulation clock is deterministic: starting from accumulator 0,
an elapsed time of exactly `k` step intervals in one frame drives the
catch-up loop through exactly `k` discrete steps (as long as the game stays
running) and leaves accumulator 0, hence interpolation fraction 0.  The
instance `k = 3`, interval 200 ms, elapsed 600 ms is in the witness. -/
theorem gameLoop_exact_steps (pick : List Cell → Cell) (st : GameState) (k fuel : Nat)
    (hfuel : k ≤ fuel)
    (hrun : ∀ j, j < k → 0 < j → (stepIter pick j st).isRunning = true) :
    loopSteps pick fuel ((k : ℚ) * moveInterval) st = (k, 0, stepIter pick k st) ∧
    fractionOf 0 = 0 := by
  refine ⟨?_, by unfold fractionOf; rw [zero_div]; exact min_eq_right (by norm_num)⟩
  induction k generalizing st fuel with
  | zero =>
      have h0 : ((0 : ℕ) : ℚ) * moveInterval = 0 := by push_cast; ring
      rw [h0]
      exact loopSteps_of_lt pick fuel 0 st (by rw [moveInterval_eq]; norm_num)
  | succ k ih =>
      cases fuel with
      | zero => exact absurd hfuel (by omega)
      | succ f =>
          have hacc : moveInterval ≤ ((k + 1 : ℕ) : ℚ) * moveInterval := by
            rw [moveInterval_eq]; push_cast
            nlinarith [(Nat.cast_nonneg k : (0 : ℚ) ≤ (k : ℚ))]
          have hsub : ((k + 1 : ℕ) : ℚ) * moveInterval - moveInterval
              = ((k : ℕ) : ℚ) * moveInterval := by push_cast; ring
          unfold loopSteps
          dsimp only
          rw [if_pos hacc, hsub]
          cases k with
          | zero =>
              have h0 : ((0 : ℕ) : ℚ) * moveInterval = 0 := by push_cast; ring
              rw [h0]
              cases hstep : (step pick st).isRunning with
              | true =>
                  rw [if_pos rfl,
                    loopSteps_of_lt pick f 0 (step pick st)
                      (by rw [moveInterval_eq]; norm_num)]
                  rfl
              | false =>
                  rw [if_neg (by simp)]
                  rfl
          | succ k' =>
              have hrun1 : (step pick st).isRunning = true := by
                have h1 := hrun 1 (by omega) (by omega)
                simpa [stepIter] using h1
              rw [hrun1, if_pos rfl]
              have ihr := ih (step pick st) f (by omega) (fun j hj hj0 => by
                have hj1 := hrun (j + 1) (by omega) (by omega)
                simpa [stepIter] using hj1)
              rw [ihr]
              rfl

/-- The initial state with the fixed food placement `pick0`; its first
three steps move the head right through `(4,6)`, `(5,6)`, `(6,6)`, all in
bounds, off the body and off the food, so the game stays running. -/
def st0 : GameState := initGame pick0

theorem gameLoop_exact_steps_witness :
    (3 ≤ 5 ∧ ∀ j, j < 3 → 0 < j → (stepIter pick0 j st0).isRunning = true) ∧
    (loopSteps pick0 5 (((3 : ℕ) : ℚ) * moveInterval) st0 = (3, 0, stepIter pick0 3 st0) ∧
     fractionOf 0 = 0) :=
  ⟨⟨by omega, by decide⟩,
    gameLoop_exact_steps pick0 st0 3 5 (by omega) (by decide)⟩

/-- C5: if several steps are due in one frame but the `m`-th step kills the
game, the `if (!isRunning) break` stops the catch-up loop right there: the
loop performs exactly `m` steps no matter how much elapsed time beyond
`m` intervals the accumulator still holds. -/
theorem gameLoop_halts_on_gameOver (pick : List Cell → Cell) (st : GameState)
    (fuel m : Nat) (acc : ℚ)
    (hm : 0 < m) (hfuel : m ≤ fuel)
    (hrun : ∀ j, j < m → 0 < j → (stepIter pick j st).isRunning = true)
    (hdead : (stepIter pick m st).isRunning = false)
    (hacc : ((m : ℕ) : ℚ) * moveInterval ≤ acc) :
    loopSteps pick fuel acc st = (m, acc - ((m : ℕ) : ℚ) * moveInterval, stepIter pick m st) := by
  induction m generalizing st fuel acc with
  | zero => exact absurd hm (by omega)
  | succ m ih =>
      cases fuel with
      | zero => exact absurd hfuel (by omega)
      | succ f =>
          have h1 : moveInterval ≤ ((m + 1 : ℕ) : ℚ) * moveInterval := by
            rw [moveInterval_eq]; push_cast
            nlinarith [(Nat.cast_nonneg m : (0 : ℚ) ≤ (m : ℚ))]
          unfold loopSteps
          dsimp only
          rw [if_pos (le_trans h1 hacc)]
          cases m with
          | zero =>
              have hdead1 : (step pick st).isRunning = false := by
                simpa [stepIter] using hdead
              rw [hdead1, if_neg (by simp)]
              have hc : ((0 + 1 : ℕ) : ℚ) * moveInterval = moveInterval := by push_cast; ring
              rw [hc]
              rfl
          | succ m' =>
              have hrun1 : (step pick st).isRunning = true := by
                have hx := hrun 1 (by omega) (by omega)
                simpa [stepIter] using hx
              rw [hrun1, if_pos rfl]
              have ihr := ih (step pick st) f (acc - moveInterval) (by omega) (by omega)
                (fun j hj hj0 => by
                  have hx := hrun (j + 1) (by omega) (by omega)
                  simpa [stepIter] using hx)
                (by simpa [stepIter] using hdead)
                (by
                  have hx : ((m' + 1 + 1 : ℕ) : ℚ) * moveInterval ≤ acc := hacc
                  push_cast at hx ⊢
                  linarith)
              rw [ihr]
              dsimp only
              have harith : acc - moveInterval - ((m' + 1 : ℕ) : ℚ) * moveInterval
                  = acc - ((m' + 1 + 1 : ℕ) : ℚ) * moveInterval := by push_cast; ring
              rw [harith]
              rfl

theorem gameLoop_halts_on_gameOver_witness :
    (stepIter pick0 1 stWall).isRunning = false ∧
    loopSteps pick0 5 600 stWall
      = (1, 600 - ((1 : ℕ) : ℚ) * moveInterval, stepIter pick0 1 stWall) :=
  ⟨by decide,
    gameLoop_halts_on_gameOver pick0 stWall 5 1 600 (by omega) (by omega)
      (fun j hj hj0 => absurd hj0 (by omega)) (by decide)
      (by rw [moveInterval_eq]; push_cast; norm_num)⟩

theorem hitsWall_eq_false_iff (c : Cell) :
    hitsWall c = false ↔ 0 ≤ c.x ∧ c.x < tileCount ∧ 0 ≤ c.y ∧ c.y < tileCount := by
  unfold hitsWall tileCount
  simp only [Bool.or_eq_false_iff, decide_eq_false_iff_not, not_lt, not_le]
  omega

/-- `placeFood()` (game.js lines 123-133): rejection sampling.  The stream
`s` stands for the successive `(Math.floor(Math.random() * tileCount),
Math.floor(Math.random() * tileCount))` draws; the on-snake test at line 127
is the same `some`-comparison as the self-collision test (`hitsSelf`).
`fuel` only bounds the retries so the loop is total; the termination half of
the claim exhibits a finite fuel that suffices. -/
def placeFoodLoop (occ : List Cell) (s : Nat → Cell) : Nat → Nat → Option Cell
  | 0, _ => none
  | fuel + 1, i =>
    if hitsSelf occ (s i) then placeFoodLoop occ s fuel (i + 1) else some (s i)

theorem placeFoodLoop_finds (occ : List Cell) (s : Nat → Cell) :
    ∀ n i : Nat, hitsSelf occ (s (i + n)) = false →
      ∃ c, placeFoodLoop occ s (n + 1) i = some c ∧ hitsSelf occ c = false := by
  intro n
  induction n with
  | zero =>
      intro i h
      rw [Nat.add_zero] at h
      refine ⟨s i, ?_, h⟩
      unfold placeFoodLoop
      rw [h, if_neg (by simp)]
  | succ n ihn =>
      intro i h
      by_cases hs : hitsSelf occ (s i) = true
      · unfold placeFoodLoop
        rw [hs, if_pos rfl]
        exact ihn (i + 1) (by rw [show i + 1 + n = i + (n + 1) from by omega]; exact h)
      · have hs' : hitsSelf occ (s i) = false := Bool.eq_false_iff.mpr hs
        refine ⟨s i, ?_, hs'⟩
        unfold placeFoodLoop
        rw [hs', if_neg (by simp)]

/-- C6: `placeFood` never selects an occupied cell — any cell it returns
fails the on-snake test, whatever the random draws were — and whenever the
occupied cells form a strict subset of the 13×13 grid and the draw stream
can reach every grid cell, some finite number of retries succeeds, the loop
terminating on a free cell. -/
theorem placeFood_free_and_terminates :
    (∀ (occ : List Cell) (s : Nat → Cell) (fuel i : Nat) (c : Cell),
        placeFoodLoop occ s fuel i = some c → c ∉ occ) ∧
    (∀ (occ : List Cell) (s : Nat → Cell),
        (∀ c : Cell, hitsWall c = false → ∃ n, s n = c) →
        (∃ c : Cell, hitsWall c = false ∧ c ∉ occ) →
        ∃ fuel c, placeFoodLoop occ s fuel 0 = some c ∧ c ∉ occ) := by
  constructor
  · intro occ s fuel
    induction fuel with
    | zero =>
        intro i c h
        exact absurd h (by simp [placeFoodLoop])
    | succ f ihf =>
        intro i c h
        unfold placeFoodLoop at h
        by_cases hs : hitsSelf occ (s i) = true
        · rw [hs, if_pos rfl] at h
          exact ihf (i + 1) c h
        · have hs' : hitsSelf occ (s i) = false := Bool.eq_false_iff.mpr hs
          rw [hs', if_neg (by simp)] at h
          injection h with h'
          rw [← h']
          exact (hitsSelf_eq_false_iff occ (s i)).mp hs'
  · intro occ s hsurj hex
    obtain ⟨c, hcgrid, hcfree⟩ := hex
    obtain ⟨n, hn⟩ := hsurj c hcgrid
    have hfree : hitsSelf occ (s (0 + n)) = false := by
      rw [Nat.zero_add, hn]
      exact (hitsSelf_eq_false_iff occ c).mpr hcfree
    obtain ⟨c', hc', hfree'⟩ := placeFoodLoop_finds occ s n 0 hfree
    exact ⟨n + 1, c', hc', (hitsSelf_eq_false_iff occ c').mp hfree'⟩

/-- A draw stream that enumerates the whole 13×13 grid. -/
def surjCand (n : Nat) : Cell :=
  ⟨((n % 13 : ℕ) : Int), (((n / 13) % 13 : ℕ) : Int)⟩

theorem surjCand_covers : ∀ c : Cell, hitsWall c = false → ∃ n, surjCand n = c := by
  intro c hc
  rw [hitsWall_eq_false_iff] at hc
  obtain ⟨x, y⟩ := c
  simp only [tileCount] at hc
  obtain ⟨hx0, hx1, hy0, hy1⟩ := hc
  refine ⟨x.toNat + 13 * y.toNat, ?_⟩
  unfold surjCand
  simp only [Cell.mk.injEq]
  constructor <;> omega

/-- A one-cell occupancy list used to instantiate the food-placement claim. -/
def occ0 : List Cell := [⟨0, 0⟩]

theorem placeFood_free_and_terminates_witness :
    ((∀ c : Cell, hitsWall c = false → ∃ n, surjCand n = c) ∧
     (∃ c : Cell, hitsWall c = false ∧ c ∉ occ0)) ∧
    (∃ fuel c, placeFoodLoop occ0 surjCand fuel 0 = some c ∧ c ∉ occ0) :=
  ⟨⟨surjCand_covers, ⟨⟨1, 0⟩, by decide, by decide⟩⟩,
    placeFood_free_and_terminates.2 occ0 surjCand surjCand_covers
      ⟨⟨1, 0⟩, by decide, by decide⟩⟩

/-- The interpolated pixel center of one body segment computed by
`drawSnake` (game.js lines 300-301):
`(prev + (cur - prev) * interp + 0.5) * tileSize` on each axis. -/
def segCenter (prev cur : Cell) (interp ts : ℚ) : ℚ × ℚ :=
  (((prev.x : ℚ) + ((cur.x : ℚ) - (prev.x : ℚ)) * interp + 0.5) * ts,
   ((prev.y : ℚ) + ((cur.y : ℚ) - (prev.y : ℚ)) * interp + 0.5) * ts)

/-- The `centers` array of `drawSnake` (game.js lines 296-303): for each
index of the current snapshot, the previous entry is `from[i] || cur` —
the current cell when the previous snapshot is shorter (growth). -/
def centersOf (prevL curL : List Cell) (interp ts : ℚ) : List (ℚ × ℚ) :=
  (List.range curL.length).map fun i =>
    let cur := curL.getD i ⟨0, 0⟩
    let prev := prevL.getD i cur
    segCenter prev cur interp ts

/-- The spec's `lerp(p, q, fraction)` on pixel points, the comparison point
for the refinement theorem below (spec §4.4). -/
def specLerp (p q : ℚ × ℚ) (t : ℚ) : ℚ × ℚ :=
  (p.1 + (q.1 - p.1) * t, p.2 + (q.2 - p.2) * t)

/-- The discrete pixel center of a cell, `(c + 0.5) * tileSize`. -/
def cellCenter (c : Cell) (ts : ℚ) : ℚ × ℚ :=
  (((c.x : ℚ) + 0.5) * ts, ((c.y : ℚ) + 0.5) * ts)

theorem centersOf_getD (prevL curL : List Cell) (interp ts : ℚ) (i : Nat)
    (hi : i < curL.length) :
    (centersOf prevL curL interp ts).getD i (0, 0)
      = segCenter (prevL.getD i (curL.getD i ⟨0, 0⟩)) (curL.getD i ⟨0, 0⟩) interp ts := by
  unfold centersOf
  rw [List.getD_eq_getElem?_getD, List.getElem?_map, List.getElem?_range hi]
  rfl

/-- C9: for every body index `i` of the current snapshot and every fraction,
the rendered center of segment `i` is the linear interpolation of the two
discrete cell centers `lerp(previousSnapshot[i], currentSnapshot[i],
fraction)`; when the previous snapshot has no entry at `i` (growth), the
previous cell is taken equal to the current one, so the segment's center is
the current cell's center regardless of the fraction (no motion). -/
theorem drawSnake_interpolation (prevL curL : List Cell) (interp ts : ℚ) (i : Nat)
    (hi : i < curL.length) :
    (centersOf prevL curL interp ts).getD i (0, 0)
      = specLerp (cellCenter (prevL.getD i (curL.getD i ⟨0, 0⟩)) ts)
          (cellCenter (curL.getD i ⟨0, 0⟩) ts) interp ∧
    (prevL.length ≤ i →
      (centersOf prevL curL interp ts).getD i (0, 0)
        = cellCenter (curL.getD i ⟨0, 0⟩) ts) := by
  have hc := centersOf_getD prevL curL interp ts i hi
  constructor
  · rw [hc]
    unfold segCenter specLerp cellCenter
    simp only [Prod.mk.injEq]
    constructor <;> ring
  · intro hlen
    rw [hc, List.getD_eq_default _ _ hlen]
    unfold segCenter cellCenter
    simp only [Prod.mk.injEq]
    constructor <;> ring

/-- A pre-growth snapshot of length 3 next to a post-growth snapshot of
length 4: index 3 is the newly added segment. -/
def prevW : List Cell := [⟨3, 6⟩, ⟨2, 6⟩, ⟨1, 6⟩]

/-- The current snapshot for the interpolation witness. -/
def curW : List Cell := [⟨4, 6⟩, ⟨3, 6⟩, ⟨2, 6⟩, ⟨1, 6⟩]

theorem drawSnake_interpolation_witness :
    (3 < curW.length ∧ prevW.length ≤ 3) ∧
    ((centersOf prevW curW (1 / 2) 40).getD 3 (0, 0)
        = specLerp (cellCenter (prevW.getD 3 (curW.getD 3 ⟨0, 0⟩)) 40)
            (cellCenter (curW.getD 3 ⟨0, 0⟩) 40) (1 / 2) ∧
     (centersOf prevW curW (1 / 2) 40).getD 3 (0, 0)
        = cellCenter (curW.getD 3 ⟨0, 0⟩) 40) :=
  ⟨⟨by decide, by decide⟩,
   ⟨(drawSnake_interpolation prevW curW (1 / 2) 40 3 (by decide)).1,
    (drawSnake_interpolation prevW curW (1 / 2) 40 3 (by decide)).2 (by decide)⟩⟩

end SathiGame
